import Mathlib

/-!
Verification of the conversation-translation and response-normalization layer
of a multi-backend chat-completion gateway.

The development shallowly embeds the Rust sources:
- crates/gemini_streaming_client/src/conversion.rs (schema simplifier,
  request builder, tool-result conversion);
- crates/chat-cli/src/api_client/clients/streaming_client.rs (backend
  dispatch, error classification, response normalization, mock backend,
  request-id accessors).

JSON values (serde_json::Value) are modelled by the inductive type JVal.
Objects are association lists in iteration order; serde_json maps cannot hold
a duplicate key, and every object this development constructs has distinct
keys, so list equality coincides with map equality on all values compared
here. Numbers carry an Int payload: the simplifier and the request builder
only ever clone numbers verbatim, so the payload type is irrelevant to every
claim. HashMap<String, String> state is modelled as a function
String -> Option String, matching get/insert semantics exactly.
-/

/-- Model of serde_json::Value. -/
inductive JVal where
  | null : JVal
  | bool (b : Bool) : JVal
  | num (n : Int) : JVal
  | str (s : String) : JVal
  | arr (xs : List JVal) : JVal
  | obj (kvs : List (String × JVal)) : JVal
deriving Repr

mutual
/-- Boolean equality on JVal, mutually with its list forms. -/
def beqV : JVal → JVal → Bool
  | .null, .null => true
  | .bool a, .bool b => a == b
  | .num a, .num b => a == b
  | .str a, .str b => a == b
  | .arr a, .arr b => beqA a b
  | .obj a, .obj b => beqO a b
  | _, _ => false

/-- Boolean equality on lists of JVal. -/
def beqA : List JVal → List JVal → Bool
  | [], [] => true
  | v :: r, w :: s => beqV v w && beqA r s
  | _, _ => false

/-- Boolean equality on association lists of JVal. -/
def beqO : List (String × JVal) → List (String × JVal) → Bool
  | [], [] => true
  | (k1, v1) :: r, (k2, v2) :: s => k1 == k2 && beqV v1 v2 && beqO r s
  | _, _ => false
end

/-- beqV decides equality of JVal. -/
theorem beq_iff : ∀ (n : Nat) (a b : JVal), sizeOf a ≤ n → (beqV a b = true ↔ a = b) := by
  intro n
  induction n with
  | zero => intro a b h; cases a <;> simp at h
  | succ n ih =>
    intro a b h
    have listA : ∀ (xs ys : List JVal), sizeOf xs ≤ n + 1 → (beqA xs ys = true ↔ xs = ys) := by
      intro xs
      induction xs with
      | nil => intro ys _; cases ys <;> simp [beqA]
      | cons v r ihr =>
        intro ys hs
        cases ys with
        | nil => simp [beqA]
        | cons w s =>
          simp only [beqA, Bool.and_eq_true]
          rw [ih v w (by simp at hs; omega), ihr s (by simp at hs; omega)]
          simp
    have listO : ∀ (xs ys : List (String × JVal)), sizeOf xs ≤ n + 1 →
        (beqO xs ys = true ↔ xs = ys) := by
      intro xs
      induction xs with
      | nil => intro ys _; cases ys <;> simp [beqO]
      | cons kv r ihr =>
        intro ys hs
        obtain ⟨k1, v1⟩ := kv
        cases ys with
        | nil => simp [beqO]
        | cons kw s =>
          obtain ⟨k2, v2⟩ := kw
          simp only [beqO, Bool.and_eq_true]
          rw [ih v1 v2 (by simp at hs; omega), ihr s (by simp at hs; omega)]
          simp [beq_iff_eq, and_assoc]
    cases a <;> cases b <;> simp [beqV]
    · exact listA _ _ (by simp at h; omega)
    · exact listO _ _ (by simp at h; omega)

instance : DecidableEq JVal := fun a b =>
  decidable_of_iff (beqV a b = true) (beq_iff (sizeOf a) a b le_rfl)

/-- Lookup in a JSON object's entry list (serde_json::Map::get). -/
def jget : List (String × JVal) → String → Option JVal
  | [], _ => none
  | (k, v) :: rest, key => if k = key then some v else jget rest key

/-- A value found by jget is structurally smaller than the entry list. -/
theorem jget_sizeOf_lt {l : List (String × JVal)} {k : String} {v : JVal}
    (h : jget l k = some v) : sizeOf v < sizeOf l := by
  induction l with
  | nil => simp [jget] at h
  | cons hd tl ih =>
    obtain ⟨k0, v0⟩ := hd
    simp only [jget] at h
    split at h
    · cases h; simp; omega
    · have := ih h
      simp
      omega

/-- The type field of a simplified property schema
(conversion.rs lines 174-186 and 248-260): copy the source type, taking the
first element when the source type is an array of types, and defaulting to
the string "string" when no type is given. -/
def typeFieldOf (kvs : List (String × JVal)) : List (String × JVal) :=
  match jget kvs "type" with
  | some (.arr ts) =>
    match ts.head? with
    | some f => [( "type", f)]
    | none => []
  | some t => [( "type", t)]
  | none => [( "type", .str "string")]

/-- The description field of a simplified property schema: copied verbatim
when present (conversion.rs lines 189-191 and 263-265). -/
def descFieldOf (kvs : List (String × JVal)) : List (String × JVal) :=
  match jget kvs "description" with
  | some d => [( "description", d)]
  | none => []

/-- The enum field of a simplified property schema: copied verbatim when
present (conversion.rs lines 194-196 and 268-270). -/
def enumFieldOf (kvs : List (String × JVal)) : List (String × JVal) :=
  match jget kvs "enum" with
  | some e => [( "enum", e)]
  | none => []

/-- Simplification of an array property's item schema
(conversion.rs, clean_array_items, lines 243-277): keep type (resolved the
same way as for properties), description and enum; any non-object items value
degrades to the string schema. -/
def clean_array_items (items : JVal) : JVal :=
  match items with
  | .obj okvs => .obj (typeFieldOf okvs ++ descFieldOf okvs ++ enumFieldOf okvs)
  | _ => .obj [( "type", .str "string")]

/-- The items field of a simplified property schema
(conversion.rs lines 199-210): inserted only when the source type is the
string "array" (the check is is_string, so an array-of-types source never
takes this branch); items are cleaned one level, defaulting to the string
schema when no items are given. -/
def itemsFieldOf (kvs : List (String × JVal)) : List (String × JVal) :=
  match jget kvs "type" with
  | some (.str "array") =>
    match jget kvs "items" with
    | some it => [( "items", clean_array_items it)]
    | none => [( "items", .obj [( "type", .str "string")])]
  | _ => []

mutual
/-- Iteration over the source properties map (conversion.rs lines 169-231):
each property whose value is a JSON object is simplified; a property whose
value is not an object is skipped without any default. -/
def cleanPropList : List (String × JVal) → List (String × JVal)
  | [] => []
  | (k, v) :: rest =>
    match v with
    | .obj pkvs => (k, .obj (cleanProp pkvs)) :: cleanPropList rest
    | _ => cleanPropList rest
termination_by l => (sizeOf l, 2)
decreasing_by
all_goals simp
all_goals omega

/-- Simplification of one property whose source value is the object with
entries pk (conversion.rs lines 171-230): type, description, enum, items and
the object-branch splice. -/
def cleanProp (pk : List (String × JVal)) : List (String × JVal) :=
  typeFieldOf pk ++ descFieldOf pk ++ enumFieldOf pk ++ itemsFieldOf pk ++ objFieldOf pk
termination_by (sizeOf pk, 1)

/-- The object-branch splice of a property (conversion.rs lines 213-228):
when the source type is the string "object" and a properties key is present,
the properties and required fields spliced from the recursive
clean_parameters_for_gemini call on the property value. The splice is
inlined here: the recursive call always returns an object whose properties
entry is the cleaned property list (or the empty object when the nested
properties value is not an object) and whose required entry is the source
required value defaulted to the empty array; the theorem
cleanProp_object_splice below records that this inlining agrees with
clean_parameters_for_gemini. -/
def objFieldOf (pk : List (String × JVal)) : List (String × JVal) :=
  match jget pk "type" with
  | some (.str "object") =>
    match h1 : jget pk "properties" with
    | some props =>
      [( "properties", .obj (match h2 : props with
          | .obj pl => cleanPropList pl
          | _ => [])),
       ( "required", (jget pk "required").getD (.arr []))]
    | none => []
  | _ => []
termination_by (sizeOf pk, 0)
decreasing_by
have := jget_sizeOf_lt h1
subst h2
simp at this ⊢
omega
end

/-- The schema simplifier (conversion.rs, clean_parameters_for_gemini,
lines 148-240): the output always has exactly the top-level keys type
(the string "object"), properties and required; required is copied verbatim
when present, else the empty array; properties is the cleaned property list
when the source properties value is an object, else the template's empty
object. A non-object input yields the bare template. -/
def clean_parameters_for_gemini (parameters : JVal) : JVal :=
  match parameters with
  | .obj kvs =>
    .obj [( "type", .str "object"),
          ( "properties", match jget kvs "properties" with
            | some (.obj pl) => .obj (cleanPropList pl)
            | _ => .obj []),
          ( "required", (jget kvs "required").getD (.arr []))]
  | _ =>
    .obj [( "type", .str "object"), ( "properties", .obj []), ( "required", .arr [])]

mutual
/-- No object anywhere inside the value maps its type key to a JSON array.
This is the input class on which the simplifier is idempotent: an
array-of-types source is simplified lossily (first element kept) and the
result can re-simplify differently. -/
def noArrTypeV : JVal → Bool
  | .arr xs => noArrTypeA xs
  | .obj kvs =>
    (match jget kvs "type" with
     | some (.arr _) => false
     | _ => true) && noArrTypeO kvs
  | _ => true

/-- noArrTypeV over a JSON array's elements. -/
def noArrTypeA : List JVal → Bool
  | [] => true
  | v :: r => noArrTypeV v && noArrTypeA r

/-- noArrTypeV over a JSON object's entry values. -/
def noArrTypeO : List (String × JVal) → Bool
  | [] => true
  | (_, v) :: r => noArrTypeV v && noArrTypeO r
end

/-- The resolved type of a property under noArrType: the source type when
present, else the string "string". -/
def resolvedType (pk : List (String × JVal)) : JVal :=
  (jget pk "type").getD (.str "string")

/-- What jget finds at the items key of a simplified property. -/
def itemsOut (pk : List (String × JVal)) : Option JVal :=
  match jget pk "type" with
  | some (.str "array") =>
    match jget pk "items" with
    | some it => some (clean_array_items it)
    | none => some (.obj [( "type", .str "string")])
  | _ => none

/-- What jget finds at the properties key of a simplified property. -/
def propsOut (pk : List (String × JVal)) : Option JVal :=
  match jget pk "type" with
  | some (.str "object") =>
    match jget pk "properties" with
    | some props => some (.obj (match props with
        | .obj pl => cleanPropList pl
        | _ => []))
    | none => none
  | _ => none

/-- What jget finds at the required key of a simplified property. -/
def reqOut (pk : List (String × JVal)) : Option JVal :=
  match jget pk "type" with
  | some (.str "object") =>
    match jget pk "properties" with
    | some _ => some ((jget pk "required").getD (.arr []))
    | none => none
  | _ => none

/-- Model of the ToolUse data carried by an assistant message
(conversion.rs, MockToolUse). -/
structure MockToolUse where
  name : String
  args : JVal
  tool_use_id : String
deriving DecidableEq, Repr

/-- Model of the ToolResult data carried by a user message
(conversion.rs, MockToolResult); status is the string "success" or "error". -/
structure MockToolResult where
  tool_use_id : String
  content : JVal
  status : String
deriving DecidableEq, Repr

/-- Model of a tool declaration (conversion.rs, MockTool). -/
structure MockTool where
  name : String
  description : String
  parameters : JVal
deriving DecidableEq, Repr

/-- Model of a conversation turn (conversion.rs, MockChatMessage). -/
inductive MockChatMessage where
  | UserMessage (content : String) (tool_results : Option (List MockToolResult))
  | AssistantMessage (content : String) (tool_uses : Option (List MockToolUse))
deriving DecidableEq, Repr

/-- Gemini wire type: a function call part's payload. -/
structure GeminiFunctionCall where
  name : String
  args : JVal
deriving DecidableEq, Repr

/-- Gemini wire type: a function response part's payload. -/
structure GeminiFunctionResponse where
  name : String
  response : JVal
deriving DecidableEq, Repr

/-- Gemini wire type: one content part. -/
inductive GeminiPart where
  | Text (text : String)
  | FunctionCall (function_call : GeminiFunctionCall)
  | FunctionResponse (function_response : GeminiFunctionResponse)
deriving DecidableEq, Repr

/-- Gemini wire type: one content entry (role and parts). -/
structure GeminiContent where
  role : Option String
  parts : List GeminiPart
deriving DecidableEq, Repr

/-- Gemini wire type: one function declaration. -/
structure GeminiFunctionDeclaration where
  name : String
  description : String
  parameters : JVal
deriving DecidableEq, Repr

/-- Gemini wire type: a tool, carrying function declarations. -/
structure GeminiTool where
  function_declarations : List GeminiFunctionDeclaration
deriving DecidableEq, Repr

/-- Gemini wire type: the generation configuration. The temperature is a
float in the source, carried around but never computed with; it is modelled
as a rational. -/
structure GeminiGenerationConfig where
  temperature : Option Rat
  max_output_tokens : Option Nat
  top_k : Option Rat
  top_p : Option Rat
deriving DecidableEq, Repr

/-- Gemini wire type: a full request. -/
structure GeminiRequest where
  contents : List GeminiContent
  tools : Option (List GeminiTool)
  generation_config : Option GeminiGenerationConfig
deriving DecidableEq, Repr

/-- Converts a tool result to a Gemini function response
(conversion.rs, tool_result_to_gemini_function_response, lines 280-300):
the payload is the object with single key result holding the content when
the status is the string "success", and the object with single key error
holding the content for any other status. -/
def tool_result_to_gemini_function_response (tool_use_id : String) (content : JVal)
    (status : String) : GeminiFunctionResponse :=
  { name := tool_use_id,
    response :=
      if status = "success" then .obj [( "result", content)]
      else .obj [( "error", content)] }

/-- One step of the assistant tool-use loop (conversion.rs lines 93-106):
record the id-to-name mapping, then push a model function-call content. -/
def tuStep (st : List GeminiContent × (String → Option String)) (tu : MockToolUse) :
    List GeminiContent × (String → Option String) :=
  (st.1 ++ [⟨some "model", [.FunctionCall ⟨tu.name, tu.args⟩]⟩],
   fun k => if k = tu.tool_use_id then some tu.name else st.2 k)

/-- Processing of one conversation message (conversion.rs lines 49-110),
threading the accumulated contents and the tool-id-to-name map. -/
def processMessage (st : List GeminiContent × (String → Option String))
    (message : MockChatMessage) : List GeminiContent × (String → Option String) :=
  match message with
  | .UserMessage content tool_results =>
    let cs1 := if content = "" then st.1 else st.1 ++ [⟨some "user", [.Text content]⟩]
    let cs2 := match tool_results with
      | some trs => cs1 ++ trs.map (fun r =>
          let tool_name := (st.2 r.tool_use_id).getD r.tool_use_id
          (⟨some "user",
            [.FunctionResponse
              (tool_result_to_gemini_function_response tool_name r.content r.status)]⟩ :
            GeminiContent))
      | none => cs1
    (cs2, st.2)
  | .AssistantMessage content tool_uses =>
    let cs1 := if content = "" then st.1 else st.1 ++ [⟨some "model", [.Text content]⟩]
    match tool_uses with
    | some tus => tus.foldl tuStep (cs1, st.2)
    | none => (cs1, st.2)

/-- Converts tool declarations to Gemini tools
(conversion.rs, tools_to_gemini_tools, lines 129-144). -/
def tools_to_gemini_tools (tools : List MockTool) : List GeminiTool :=
  [⟨tools.map (fun t => ⟨t.name, t.description, clean_parameters_for_gemini t.parameters⟩)⟩]

/-- The REST request builder (conversion.rs,
conversation_state_to_gemini_request, lines 20-126): fold over history plus
the current user message in order, starting from no contents and the empty
id-to-name map; attach simplified tools and a fixed generation config
(temperature from the client, max output tokens 4096). -/
def conversation_state_to_gemini_request (user_message : MockChatMessage)
    (history : List MockChatMessage) (tools : Option (List MockTool))
    (temperature : Rat) : GeminiRequest :=
  let st := (history ++ [user_message]).foldl processMessage ([], fun _ => none)
  { contents := st.1,
    tools := tools.map tools_to_gemini_tools,
    generation_config := some ⟨some temperature, some 4096, none, none⟩ }

/-- Gemini wire type: one response candidate. -/
structure GeminiCandidate where
  content : GeminiContent
deriving DecidableEq, Repr

/-- Gemini wire type: a full response. -/
structure GeminiResponse where
  candidates : List GeminiCandidate
deriving DecidableEq, Repr

/-- One canonical chat event (chat-cli api_client model, ChatResponseStream,
as used by streaming_client.rs): an assistant text delta or a tool-use
event. -/
inductive ChatResponseStream where
  | AssistantResponseEvent (content : String)
  | ToolUseEvent (tool_use_id : String) (name : String) (input : Option String)
      (stop : Option Bool)
deriving DecidableEq, Repr

/-- Hexadecimal digit for low control-character escapes. -/
def hexDigit (n : Nat) : Char :=
  if n < 10 then Char.ofNat (48 + n) else Char.ofNat (87 + n)

/-- JSON escaping of one character (serde_json string serialization). -/
def jescapeChar (c : Char) : String :=
  if c.toNat = 34 then "\\\""
  else if c.toNat = 92 then "\\\\"
  else if c.toNat = 8 then "\\b"
  else if c.toNat = 12 then "\\f"
  else if c.toNat = 10 then "\\n"
  else if c.toNat = 13 then "\\r"
  else if c.toNat = 9 then "\\t"
  else if c.toNat < 32 then
    "\\u00" ++ String.singleton (hexDigit (c.toNat / 16)) ++
      String.singleton (hexDigit (c.toNat % 16))
  else String.singleton c

/-- JSON string literal serialization. -/
def jstring (s : String) : String :=
  "\"" ++ String.join (s.toList.map jescapeChar) ++ "\""

mutual
/-- Compact JSON serialization (serde_json::to_string). -/
def jserialize : JVal → String
  | .null => "null"
  | .bool b => if b then "true" else "false"
  | .num n => toString n
  | .str s => jstring s
  | .arr xs => "[" ++ jserializeArr xs ++ "]"
  | .obj kvs => "\x7b" ++ jserializeObj kvs ++ "\x7d"

/-- Comma-joined serialization of array elements. -/
def jserializeArr : List JVal → String
  | [] => ""
  | [v] => jserialize v
  | v :: rest => jserialize v ++ "," ++ jserializeArr rest

/-- Comma-joined serialization of object entries. -/
def jserializeObj : List (String × JVal) → String
  | [] => ""
  | [(k, v)] => jstring k ++ ":" ++ jserialize v
  | (k, v) :: rest => jstring k ++ ":" ++ jserialize v ++ "," ++ jserializeObj rest
end

/-- Serialization of a function call's args
(streaming_client.rs lines 402-407): an object goes through
serde_json::to_string of the map, anything else through to_string of the
value; both produce the value's compact serialization. -/
def serializeArgs (args : JVal) : String :=
  match args with
  | .obj m => jserialize (.obj m)
  | _ => jserialize args

/-- Normalization of the first candidate's parts into canonical events
(streaming_client.rs lines 390-425), in push order: a text part yields one
AssistantResponseEvent; a function-call part yields two ToolUseEvents
sharing one generated id (first with no input and no stop, then with the
serialized args and stop true); a function-response part yields nothing.
The source draws each generated id from the system clock; the model passes
an id supply indexed by the number of function-call parts already seen. -/
def partsToStreams (genId : Nat → String) : Nat → List GeminiPart → List ChatResponseStream
  | _, [] => []
  | i, .Text t :: rest => .AssistantResponseEvent t :: partsToStreams genId i rest
  | i, .FunctionCall fc :: rest =>
    .ToolUseEvent (genId i) fc.name none none ::
    .ToolUseEvent (genId i) fc.name (some (serializeArgs fc.args)) (some true) ::
    partsToStreams genId (i + 1) rest
  | i, .FunctionResponse _ :: rest => partsToStreams genId i rest

/-- Normalization of a full REST response (streaming_client.rs lines
388-425): only the first candidate is walked; no candidates yields no
events. -/
def normalizeGeminiResponse (genId : Nat → String) (response : GeminiResponse) :
    List ChatResponseStream :=
  match response.candidates.head? with
  | some candidate => partsToStreams genId 0 candidate.content.parts
  | none => []

/-- The stored event vector of the Gemini arm's SendMessageOutput
(streaming_client.rs line 427): the normalized events reversed so repeated
pop-from-end yields original order. -/
def geminiStoredEvents (genId : Nat → String) (response : GeminiResponse) :
    List ChatResponseStream :=
  (normalizeGeminiResponse genId response).reverse

/-- One recv step on a materialized event vector
(streaming_client.rs lines 476-477): Vec::pop takes from the end. -/
def recvOne (events : List ChatResponseStream) :
    Option ChatResponseStream × List ChatResponseStream :=
  (events.getLast?, events.dropLast)

/-- Repeated recv until the first None, fueled by the vector length. -/
def drainAux : Nat → List ChatResponseStream → List ChatResponseStream
  | 0, _ => []
  | n + 1, events =>
    match recvOne events with
    | (none, _) => []
    | (some e, rest) => e :: drainAux n rest

/-- The full sequence of events a caller receives from a materialized
vector by calling recv until it returns None. -/
def drain (events : List ChatResponseStream) : List ChatResponseStream :=
  drainAux events.length events

/-- One send on the mock backend (streaming_client.rs lines 439-443): take
the next queued batch (or the empty batch when the queue is exhausted),
reverse it for pop-from-end storage, and return the stored vector together
with the remaining queue. -/
def mockSend (queue : List (List ChatResponseStream)) :
    List ChatResponseStream × List (List ChatResponseStream) :=
  match queue with
  | [] => ([], [])
  | batch :: rest => (batch.reverse, rest)

/-- The mock queue remaining after n send calls. -/
def mockRunState (queue : List (List ChatResponseStream)) : Nat → List (List ChatResponseStream)
  | 0 => queue
  | n + 1 => (mockSend (mockRunState queue n)).2

/-- Model of SendMessageOutput (streaming_client.rs lines 448-456). The
enterprise variants carry the request id of the underlying service response
(the rest of the service output is opaque to every claim here); the Gemini
and Mock variants carry the materialized event vector. -/
inductive SendMessageOutput where
  | Codewhisperer (underlying_request_id : Option String)
  | QDeveloper (underlying_request_id : Option String)
  | Gemini (events : List ChatResponseStream)
  | Mock (events : List ChatResponseStream)
deriving DecidableEq, Repr

/-- The inherent request_id accessor (streaming_client.rs lines 459-466):
the underlying response's id for the enterprise backends, None for Gemini
and Mock. -/
def SendMessageOutput.request_id : SendMessageOutput → Option String
  | .Codewhisperer rid => rid
  | .QDeveloper rid => rid
  | .Gemini _ => none
  | .Mock _ => none

/-- The RequestId trait implementation (streaming_client.rs lines 482-491):
the underlying response's id for the enterprise backends, and fixed
placeholder ids for Gemini and Mock. -/
def requestIdTraitImpl : SendMessageOutput → Option String
  | .Codewhisperer rid => rid
  | .QDeveloper rid => rid
  | .Gemini _ => some "<gemini-request-id>"
  | .Mock _ => some "<mock-request-id>"

/-- The data of an enterprise backend send error visible to the dispatch
code: the raw HTTP status when a raw response exists, and the service
error's machine code and message when a service error exists. -/
structure ServiceError where
  status : Option Nat
  code : Option String
  message : Option String
deriving DecidableEq, Repr

/-- Model of the ApiClientError variants produced by the dispatch code in
streaming_client.rs; Codewhisperer and QDeveloper are the generic
pass-through wrappings of a send error, tagged by origin backend. -/
inductive ApiClientError where
  | QuotaBreach (message : String)
  | ContextWindowOverflow
  | ModelConfigurationError (message : String)
  | ModelRuntimeError (message : String)
  | Codewhisperer (error : ServiceError)
  | QDeveloper (error : ServiceError)
deriving DecidableEq, Repr

/-- Error classification of the Codewhisperer send arm
(streaming_client.rs lines 202-219): a raw 429 status is a quota breach; a
ValidationException whose message is exactly "Input is too long." is a
context window overflow; anything else converts generically. -/
def codewhispererClassifyError (e : ServiceError) : ApiClientError :=
  if e.status = some 429 then .QuotaBreach "quota has reached its limit"
  else if e.code = some "ValidationException" ∧ e.message = some "Input is too long." then
    .ContextWindowOverflow
  else .Codewhisperer e

/-- Modelled from the spec: the QDeveloper arm (streaming_client.rs lines
221-241) converts a send error with the generic question-mark conversion
and inspects nothing; the From impl behind that conversion is not among the
provided sources, and the spec says all other backend errors pass through
generically, tagged with their origin backend. -/
def qdeveloperClassifyError (e : ServiceError) : ApiClientError :=
  .QDeveloper e

/-- The two enterprise backends. -/
inductive EnterpriseBackend where
  | codewhisperer
  | qdeveloper
deriving DecidableEq, Repr

/-- Error classification of an enterprise send error by backend. -/
def enterpriseClassifyError : EnterpriseBackend → ServiceError → ApiClientError
  | .codewhisperer, e => codewhispererClassifyError e
  | .qdeveloper, e => qdeveloperClassifyError e

/-- Whether a conversation message contains a ToolUse with the given id. -/
def msgUsesId (message : MockChatMessage) (id : String) : Prop :=
  match message with
  | .AssistantMessage _ (some tus) => ∃ tu ∈ tus, tu.tool_use_id = id
  | _ => False

/-- Whether a tool result occurs in some user message of a message list. -/
def resultInConversation (r : MockToolResult) (msgs : List MockChatMessage) : Prop :=
  ∃ msg ∈ msgs, ∃ uc trs, msg = .UserMessage uc (some trs) ∧ r ∈ trs

/-! Basic jget lemmas. -/

@[simp]
theorem jget_nil (key : String) : jget [] key = none := rfl

theorem jget_cons (k : String) (v : JVal) (rest : List (String × JVal)) (key : String) :
    jget ((k, v) :: rest) key = if k = key then some v else jget rest key := rfl

@[simp]
theorem jget_append (l1 l2 : List (String × JVal)) (key : String) :
    jget (l1 ++ l2) key = (jget l1 key).or (jget l2 key) := by
  induction l1 with
  | nil => simp [jget]
  | cons hd tl ih =>
    obtain ⟨k, v⟩ := hd
    by_cases h : k = key <;> simp [jget, h, ih]

theorem jget_eq_none_of_keys {l : List (String × JVal)} {key : String}
    (h : ∀ p ∈ l, p.1 ≠ key) : jget l key = none := by
  induction l with
  | nil => rfl
  | cons hd tl ih =>
    obtain ⟨k, v⟩ := hd
    have hk : k ≠ key := h (k, v) (by simp)
    simp only [jget, if_neg hk]
    exact ih (fun p hp => h p (by simp [hp]))

/-! Unfolding equations for the simplifier's mutual definitions. -/

@[simp]
theorem cleanPropList_nil : cleanPropList [] = [] := by
  simp [cleanPropList]

@[simp]
theorem cleanPropList_cons_obj (k : String) (pkvs rest : List (String × JVal)) :
    cleanPropList ((k, .obj pkvs) :: rest) = (k, .obj (cleanProp pkvs)) :: cleanPropList rest := by
  simp [cleanPropList]

@[simp]
theorem cleanPropList_cons_null (k : String) (rest : List (String × JVal)) :
    cleanPropList ((k, .null) :: rest) = cleanPropList rest := by
  simp [cleanPropList]

@[simp]
theorem cleanPropList_cons_bool (k : String) (b : Bool) (rest : List (String × JVal)) :
    cleanPropList ((k, .bool b) :: rest) = cleanPropList rest := by
  simp [cleanPropList]

@[simp]
theorem cleanPropList_cons_num (k : String) (n : Int) (rest : List (String × JVal)) :
    cleanPropList ((k, .num n) :: rest) = cleanPropList rest := by
  simp [cleanPropList]

@[simp]
theorem cleanPropList_cons_str (k s : String) (rest : List (String × JVal)) :
    cleanPropList ((k, .str s) :: rest) = cleanPropList rest := by
  simp [cleanPropList]

@[simp]
theorem cleanPropList_cons_arr (k : String) (xs : List JVal) (rest : List (String × JVal)) :
    cleanPropList ((k, .arr xs) :: rest) = cleanPropList rest := by
  simp [cleanPropList]

/-- cleanProp is the concatenation of its five segments. -/
theorem cleanProp_eq (pk : List (String × JVal)) :
    cleanProp pk = typeFieldOf pk ++ descFieldOf pk ++ enumFieldOf pk ++ itemsFieldOf pk ++
      objFieldOf pk := by
  simp [cleanProp]

/-- The inlined object-branch splice in cleanProp agrees with extracting the
properties and required entries of the recursive clean_parameters_for_gemini
call on the property value, as the source does. -/
theorem cleanProp_object_splice (pk : List (String × JVal)) :
    (match clean_parameters_for_gemini (.obj pk) with
     | .obj ckvs => (jget ckvs "properties", jget ckvs "required")
     | _ => (none, none))
    = (some (match jget pk "properties" with
        | some (.obj pl) => .obj (cleanPropList pl)
        | _ => .obj []),
       some ((jget pk "required").getD (.arr []))) := by
  rcases hp : jget pk "properties" with _ | props
  · simp [clean_parameters_for_gemini, hp, jget]
  · cases props <;> simp [clean_parameters_for_gemini, hp, jget]

/-! noArrType accessor lemmas. -/

theorem noArrTypeV_obj_type {kvs : List (String × JVal)}
    (h : noArrTypeV (.obj kvs) = true) : ∀ ts, jget kvs "type" ≠ some (.arr ts) := by
  intro ts hts
  unfold noArrTypeV at h
  rw [hts] at h
  simp at h

theorem noArrTypeV_obj_entries {kvs : List (String × JVal)}
    (h : noArrTypeV (.obj kvs) = true) : noArrTypeO kvs = true := by
  unfold noArrTypeV at h
  rw [Bool.and_eq_true] at h
  exact h.2

theorem noArrTypeO_jget {l : List (String × JVal)} {k : String} {v : JVal}
    (hO : noArrTypeO l = true) (h : jget l k = some v) : noArrTypeV v = true := by
  induction l with
  | nil => simp [jget] at h
  | cons hd tl ih =>
    obtain ⟨k0, v0⟩ := hd
    unfold noArrTypeO at hO
    rw [Bool.and_eq_true] at hO
    simp only [jget] at h
    split at h
    · cases h; exact hO.1
    · exact ih hO.2 h

theorem noArrTypeO_mem {l : List (String × JVal)} {k : String} {v : JVal}
    (hO : noArrTypeO l = true) (hm : (k, v) ∈ l) : noArrTypeV v = true := by
  induction l with
  | nil => simp at hm
  | cons hd tl ih =>
    obtain ⟨k0, v0⟩ := hd
    unfold noArrTypeO at hO
    rw [Bool.and_eq_true] at hO
    rcases List.mem_cons.mp hm with h | h
    · cases h; exact hO.1
    · exact ih hO.2 h

/-! The resolved type under the no-array-type condition. -/

theorem typeFieldOf_of_noArr (pk : List (String × JVal))
    (h : ∀ ts, jget pk "type" ≠ some (.arr ts)) :
    typeFieldOf pk = [( "type", resolvedType pk)] := by
  unfold typeFieldOf resolvedType
  rcases ht : jget pk "type" with _ | t
  · simp
  · cases t <;> simp
    exact absurd ht (h _)

theorem resolvedType_not_arr (pk : List (String × JVal))
    (h : ∀ ts, jget pk "type" ≠ some (.arr ts)) :
    ∀ ts, resolvedType pk ≠ .arr ts := by
  intro ts hts
  unfold resolvedType at hts
  rcases ht : jget pk "type" with _ | t
  · rw [ht] at hts; simp at hts
  · rw [ht] at hts
    simp at hts
    exact absurd (hts ▸ ht) (h ts)

/-! Keys occurring in each segment of a simplified property. -/

theorem keys_typeFieldOf (pk : List (String × JVal)) :
    ∀ p ∈ typeFieldOf pk, p.1 = "type" := by
  unfold typeFieldOf
  split
  · split <;> simp
  · simp
  · simp

theorem keys_descFieldOf (pk : List (String × JVal)) :
    ∀ p ∈ descFieldOf pk, p.1 = "description" := by
  unfold descFieldOf
  split <;> simp

theorem keys_enumFieldOf (pk : List (String × JVal)) :
    ∀ p ∈ enumFieldOf pk, p.1 = "enum" := by
  unfold enumFieldOf
  split <;> simp

theorem keys_itemsFieldOf (pk : List (String × JVal)) :
    ∀ p ∈ itemsFieldOf pk, p.1 = "items" := by
  unfold itemsFieldOf
  split
  · split <;> simp
  · simp

theorem keys_objFieldOf (pk : List (String × JVal)) :
    ∀ p ∈ objFieldOf pk, p.1 = "properties" ∨ p.1 = "required" := by
  unfold objFieldOf
  split
  · split
    · simp
    · simp
  · simp

/-! jget on each segment. -/

theorem jget_typeFieldOf_ne (pk : List (String × JVal)) (key : String) (h : key ≠ "type") :
    jget (typeFieldOf pk) key = none :=
  jget_eq_none_of_keys (fun p hp => by rw [keys_typeFieldOf pk p hp]; exact Ne.symm h)

theorem jget_descFieldOf_ne (pk : List (String × JVal)) (key : String)
    (h : key ≠ "description") : jget (descFieldOf pk) key = none :=
  jget_eq_none_of_keys (fun p hp => by rw [keys_descFieldOf pk p hp]; exact Ne.symm h)

theorem jget_enumFieldOf_ne (pk : List (String × JVal)) (key : String) (h : key ≠ "enum") :
    jget (enumFieldOf pk) key = none :=
  jget_eq_none_of_keys (fun p hp => by rw [keys_enumFieldOf pk p hp]; exact Ne.symm h)

theorem jget_itemsFieldOf_ne (pk : List (String × JVal)) (key : String) (h : key ≠ "items") :
    jget (itemsFieldOf pk) key = none :=
  jget_eq_none_of_keys (fun p hp => by rw [keys_itemsFieldOf pk p hp]; exact Ne.symm h)

theorem jget_objFieldOf_ne (pk : List (String × JVal)) (key : String)
    (h1 : key ≠ "properties") (h2 : key ≠ "required") : jget (objFieldOf pk) key = none :=
  jget_eq_none_of_keys (fun p hp => by
    rcases keys_objFieldOf pk p hp with h | h <;> rw [h]
    · exact Ne.symm h1
    · exact Ne.symm h2)

theorem jget_typeFieldOf (pk : List (String × JVal))
    (h : ∀ ts, jget pk "type" ≠ some (.arr ts)) :
    jget (typeFieldOf pk) "type" = some (resolvedType pk) := by
  rw [typeFieldOf_of_noArr pk h]
  simp [jget]

theorem jget_descFieldOf (pk : List (String × JVal)) :
    jget (descFieldOf pk) "description" = jget pk "description" := by
  unfold descFieldOf
  rcases hd : jget pk "description" with _ | d <;> simp [jget]

theorem jget_enumFieldOf (pk : List (String × JVal)) :
    jget (enumFieldOf pk) "enum" = jget pk "enum" := by
  unfold enumFieldOf
  rcases he : jget pk "enum" with _ | e <;> simp [jget]

theorem jget_itemsFieldOf (pk : List (String × JVal)) :
    jget (itemsFieldOf pk) "items" = itemsOut pk := by
  unfold itemsFieldOf itemsOut
  split
  · split <;> simp [jget]
  · simp

theorem jget_objFieldOf_props (pk : List (String × JVal)) :
    jget (objFieldOf pk) "properties" = propsOut pk := by
  unfold objFieldOf propsOut
  split
  · split
    · rename_i props heq
      cases props <;> simp_all [jget]
    · simp_all
  · simp

theorem jget_objFieldOf_req (pk : List (String × JVal)) :
    jget (objFieldOf pk) "required" = reqOut pk := by
  unfold objFieldOf reqOut
  split
  · split <;> simp_all [jget]
  · simp

/-! jget characterization of a simplified property. -/

theorem jget_cleanProp_type (pk : List (String × JVal))
    (h : ∀ ts, jget pk "type" ≠ some (.arr ts)) :
    jget (cleanProp pk) "type" = some (resolvedType pk) := by
  rw [cleanProp_eq]
  simp [jget_typeFieldOf pk h]

theorem jget_cleanProp_desc (pk : List (String × JVal)) :
    jget (cleanProp pk) "description" = jget pk "description" := by
  rw [cleanProp_eq]
  simp [jget_typeFieldOf_ne pk "description" (by decide), jget_descFieldOf,
    jget_enumFieldOf_ne pk "description" (by decide),
    jget_itemsFieldOf_ne pk "description" (by decide),
    jget_objFieldOf_ne pk "description" (by decide) (by decide)]

theorem jget_cleanProp_enum (pk : List (String × JVal)) :
    jget (cleanProp pk) "enum" = jget pk "enum" := by
  rw [cleanProp_eq]
  simp [jget_typeFieldOf_ne pk "enum" (by decide), jget_enumFieldOf,
    jget_descFieldOf_ne pk "enum" (by decide),
    jget_itemsFieldOf_ne pk "enum" (by decide),
    jget_objFieldOf_ne pk "enum" (by decide) (by decide)]

theorem jget_cleanProp_items (pk : List (String × JVal)) :
    jget (cleanProp pk) "items" = itemsOut pk := by
  rw [cleanProp_eq]
  simp [jget_typeFieldOf_ne pk "items" (by decide), jget_itemsFieldOf,
    jget_descFieldOf_ne pk "items" (by decide),
    jget_enumFieldOf_ne pk "items" (by decide),
    jget_objFieldOf_ne pk "items" (by decide) (by decide)]

theorem jget_cleanProp_props (pk : List (String × JVal)) :
    jget (cleanProp pk) "properties" = propsOut pk := by
  rw [cleanProp_eq]
  simp [jget_typeFieldOf_ne pk "properties" (by decide), jget_objFieldOf_props,
    jget_descFieldOf_ne pk "properties" (by decide),
    jget_enumFieldOf_ne pk "properties" (by decide),
    jget_itemsFieldOf_ne pk "properties" (by decide)]

theorem jget_cleanProp_req (pk : List (String × JVal)) :
    jget (cleanProp pk) "required" = reqOut pk := by
  rw [cleanProp_eq]
  simp [jget_typeFieldOf_ne pk "required" (by decide), jget_objFieldOf_req,
    jget_descFieldOf_ne pk "required" (by decide),
    jget_enumFieldOf_ne pk "required" (by decide),
    jget_itemsFieldOf_ne pk "required" (by decide)]

/-! Stability of a simplified property under re-simplification, segment by
segment, on no-array-type input. -/

theorem typeFieldOf_of_jget_resolved (out pk : List (String × JVal))
    (hj : jget out "type" = some (resolvedType pk))
    (h : ∀ ts, jget pk "type" ≠ some (.arr ts)) :
    typeFieldOf out = typeFieldOf pk := by
  rw [typeFieldOf_of_noArr pk h]
  unfold typeFieldOf
  rw [hj]
  rcases hr : resolvedType pk with _ | _ | _ | _ | ts | _ <;> simp
  exact absurd hr (resolvedType_not_arr pk h ts)

theorem descFieldOf_congr (l1 l2 : List (String × JVal))
    (h : jget l1 "description" = jget l2 "description") :
    descFieldOf l1 = descFieldOf l2 := by
  unfold descFieldOf
  rw [h]

theorem enumFieldOf_congr (l1 l2 : List (String × JVal))
    (h : jget l1 "enum" = jget l2 "enum") :
    enumFieldOf l1 = enumFieldOf l2 := by
  unfold enumFieldOf
  rw [h]

/-- clean_array_items of the default string item schema is itself. -/
theorem clean_array_items_default :
    clean_array_items (.obj [( "type", .str "string")]) = .obj [( "type", .str "string")] := by
  simp [clean_array_items, typeFieldOf, descFieldOf, enumFieldOf, jget]

/-- clean_array_items is idempotent on no-array-type items. -/
theorem clean_array_items_idem (it : JVal) (h : noArrTypeV it = true) :
    clean_array_items (clean_array_items it) = clean_array_items it := by
  cases it
  case obj okvs =>
    have htype : ∀ ts, jget okvs "type" ≠ some (.arr ts) := noArrTypeV_obj_type h
    have hjt : jget (typeFieldOf okvs ++ descFieldOf okvs ++ enumFieldOf okvs) "type"
        = some (resolvedType okvs) := by
      simp [jget_typeFieldOf okvs htype]
    have hjd : jget (typeFieldOf okvs ++ descFieldOf okvs ++ enumFieldOf okvs) "description"
        = jget okvs "description" := by
      simp [jget_typeFieldOf_ne okvs "description" (by decide), jget_descFieldOf,
        jget_enumFieldOf_ne okvs "description" (by decide)]
    have hje : jget (typeFieldOf okvs ++ descFieldOf okvs ++ enumFieldOf okvs) "enum"
        = jget okvs "enum" := by
      simp [jget_typeFieldOf_ne okvs "enum" (by decide), jget_enumFieldOf,
        jget_descFieldOf_ne okvs "enum" (by decide)]
    show clean_array_items (.obj (typeFieldOf okvs ++ descFieldOf okvs ++ enumFieldOf okvs)) = _
    unfold clean_array_items
    dsimp only
    rw [typeFieldOf_of_jget_resolved _ okvs hjt htype,
      descFieldOf_congr _ okvs hjd, enumFieldOf_congr _ okvs hje]
  all_goals exact clean_array_items_default

theorem typeFieldOf_cleanProp (pk : List (String × JVal))
    (h : ∀ ts, jget pk "type" ≠ some (.arr ts)) :
    typeFieldOf (cleanProp pk) = typeFieldOf pk :=
  typeFieldOf_of_jget_resolved (cleanProp pk) pk (jget_cleanProp_type pk h) h

theorem descFieldOf_cleanProp (pk : List (String × JVal)) :
    descFieldOf (cleanProp pk) = descFieldOf pk :=
  descFieldOf_congr _ _ (jget_cleanProp_desc pk)

theorem enumFieldOf_cleanProp (pk : List (String × JVal)) :
    enumFieldOf (cleanProp pk) = enumFieldOf pk :=
  enumFieldOf_congr _ _ (jget_cleanProp_enum pk)

theorem itemsFieldOf_cleanProp (pk : List (String × JVal))
    (h : ∀ ts, jget pk "type" ≠ some (.arr ts)) (hO : noArrTypeO pk = true) :
    itemsFieldOf (cleanProp pk) = itemsFieldOf pk := by
  have h1 := jget_cleanProp_type pk h
  rcases ht : jget pk "type" with _ | t
  case none =>
    have hrt : resolvedType pk = .str "string" := by simp [resolvedType, ht]
    rw [hrt] at h1
    unfold itemsFieldOf
    rw [h1, ht]
    simp
  case some =>
    have hrt : resolvedType pk = t := by simp [resolvedType, ht]
    rw [hrt] at h1
    cases t
    case arr ts => exact absurd ht (h ts)
    case str s =>
      by_cases hs : s = "array"
      · subst hs
        unfold itemsFieldOf
        rw [h1, ht, jget_cleanProp_items pk]
        unfold itemsOut
        rw [ht]
        rcases hit : jget pk "items" with _ | it
        · simp [clean_array_items_default]
        · have := clean_array_items_idem it (noArrTypeO_jget hO hit)
          simp [this]
      · unfold itemsFieldOf
        rw [h1, ht]
        simp [hs]
    case null =>
      unfold itemsFieldOf
      rw [h1, ht]
    case bool b =>
      unfold itemsFieldOf
      rw [h1, ht]
    case num n =>
      unfold itemsFieldOf
      rw [h1, ht]
    case obj o =>
      unfold itemsFieldOf
      rw [h1, ht]

/-- objFieldOf restated without dependent matches. -/
theorem objFieldOf_eq (pk : List (String × JVal)) :
    objFieldOf pk =
      match jget pk "type" with
      | some (.str "object") =>
        match jget pk "properties" with
        | some props =>
          [( "properties", .obj (match props with
              | .obj pl => cleanPropList pl
              | _ => [])),
           ( "required", (jget pk "required").getD (.arr []))]
        | none => []
      | _ => [] := by
  unfold objFieldOf
  split
  · split
    · rename_i props heq
      conv_rhs => rw [heq]
      cases props <;> simp
    · rename_i heq
      rw [heq]
  · rfl

theorem objFieldOf_cleanProp (pk : List (String × JVal))
    (h : ∀ ts, jget pk "type" ≠ some (.arr ts))
    (hrec : ∀ pl, jget pk "properties" = some (.obj pl) →
      cleanPropList (cleanPropList pl) = cleanPropList pl) :
    objFieldOf (cleanProp pk) = objFieldOf pk := by
  have h1 := jget_cleanProp_type pk h
  rw [objFieldOf_eq (cleanProp pk), objFieldOf_eq pk]
  rcases ht : jget pk "type" with _ | t
  case none =>
    have hrt : resolvedType pk = .str "string" := by simp [resolvedType, ht]
    rw [hrt] at h1
    rw [h1]
    simp
  case some =>
    have hrt : resolvedType pk = t := by simp [resolvedType, ht]
    rw [hrt] at h1
    cases t
    case arr ts => exact absurd ht (h ts)
    case str s =>
      by_cases hs : s = "object"
      · subst hs
        rw [h1, jget_cleanProp_props pk, jget_cleanProp_req pk]
        unfold propsOut reqOut
        rw [ht]
        rcases hp : jget pk "properties" with _ | props
        · simp
        · cases props <;> simp
          exact hrec _ hp
      · rw [h1]
        simp [hs]
    case null =>
      rw [h1]
    case bool b =>
      rw [h1]
    case num n =>
      rw [h1]
    case obj o =>
      rw [h1]

/-- Re-simplifying a cleaned property list is the identity, given pointwise
stability of the cleaned properties. -/
theorem cleanPropList_idem_of (l : List (String × JVal))
    (hA : ∀ k pkv, (k, JVal.obj pkv) ∈ l → cleanProp (cleanProp pkv) = cleanProp pkv) :
    cleanPropList (cleanPropList l) = cleanPropList l := by
  induction l with
  | nil => simp
  | cons hd tl ih =>
    obtain ⟨k, v⟩ := hd
    have ihtl := ih (fun k pkv hm => hA k pkv (by simp [hm]))
    cases v <;> simp [ihtl]
    exact hA k _ (by simp)

/-- Core stability of one simplified property, with the nested recursion
supplied as a hypothesis. -/
theorem cleanProp_idem_core (pk : List (String × JVal))
    (h : ∀ ts, jget pk "type" ≠ some (.arr ts)) (hO : noArrTypeO pk = true)
    (hrec : ∀ pl, jget pk "properties" = some (.obj pl) →
      cleanPropList (cleanPropList pl) = cleanPropList pl) :
    cleanProp (cleanProp pk) = cleanProp pk := by
  rw [cleanProp_eq (cleanProp pk), typeFieldOf_cleanProp pk h, descFieldOf_cleanProp pk,
    enumFieldOf_cleanProp pk, itemsFieldOf_cleanProp pk h hO, objFieldOf_cleanProp pk h hrec,
    ← cleanProp_eq]

/-- Simplified properties of a no-array-type source are stable under
re-simplification. -/
theorem cleanProp_idem : ∀ (n : Nat) (pk : List (String × JVal)), sizeOf pk ≤ n →
    noArrTypeV (.obj pk) = true → cleanProp (cleanProp pk) = cleanProp pk := by
  intro n
  induction n with
  | zero =>
    intro pk h
    cases pk <;> simp at h
  | succ n ih =>
    intro pk hsz hnta
    have h := noArrTypeV_obj_type hnta
    have hO := noArrTypeV_obj_entries hnta
    apply cleanProp_idem_core pk h hO
    intro pl hp
    have hplNTA : noArrTypeV (.obj pl) = true := noArrTypeO_jget hO hp
    have hOpl : noArrTypeO pl = true := noArrTypeV_obj_entries hplNTA
    have hszpl : sizeOf pl < sizeOf pk := by
      have h1 := jget_sizeOf_lt hp
      simp at h1
      omega
    apply cleanPropList_idem_of
    intro k pkv hmem
    have hmemNTA : noArrTypeV (.obj pkv) = true := noArrTypeO_mem hOpl hmem
    have hsz2 : sizeOf pkv ≤ n := by
      have h1 := List.sizeOf_lt_of_mem hmem
      simp at h1
      omega
    exact ih pkv hsz2 hmemNTA

/-- The schema simplifier is idempotent on every input in which no type key
holds a JSON array. -/
theorem clean_parameters_idem_of_noArrType (x : JVal) (h : noArrTypeV x = true) :
    clean_parameters_for_gemini (clean_parameters_for_gemini x)
      = clean_parameters_for_gemini x := by
  cases x
  case obj kvs =>
    have hO := noArrTypeV_obj_entries h
    unfold clean_parameters_for_gemini
    rcases hp : jget kvs "properties" with _ | props
    · simp [jget, hp]
    · cases props <;> simp [jget, hp]
      case obj pl =>
        have hplNTA : noArrTypeV (.obj pl) = true := noArrTypeO_jget hO hp
        have hOpl : noArrTypeO pl = true := noArrTypeV_obj_entries hplNTA
        apply cleanPropList_idem_of
        intro k pkv hmem
        exact cleanProp_idem (sizeOf pkv) pkv le_rfl (noArrTypeO_mem hOpl hmem)
  all_goals simp [clean_parameters_for_gemini, jget]

/-! recv and mock-backend lemmas. -/

theorem drainAux_eq_reverse : ∀ (n : Nat) (v : List ChatResponseStream),
    v.length ≤ n → drainAux n v = v.reverse := by
  intro n
  induction n with
  | zero =>
    intro v h
    have hv : v = [] := List.eq_nil_of_length_eq_zero (Nat.le_zero.mp h)
    subst hv
    rfl
  | succ n ih =>
    intro v h
    induction v using List.reverseRecOn with
    | nil => rfl
    | append_singleton ys y _ =>
      have hlen : ys.length ≤ n := by simp at h; omega
      simp [drainAux, recvOne, ih ys hlen]

/-- Repeatedly calling recv on a pop-from-end vector yields its elements in
reverse storage order. -/
theorem drain_eq_reverse (v : List ChatResponseStream) : drain v = v.reverse :=
  drainAux_eq_reverse v.length v le_rfl

/-- The mock queue after n sends is the original queue with n batches
dropped. -/
theorem mockRunState_eq_drop (queue : List (List ChatResponseStream)) :
    ∀ n, mockRunState queue n = queue.drop n := by
  intro n
  induction n with
  | zero => rfl
  | succ n ih =>
    show (mockSend (mockRunState queue n)).2 = _
    rw [ih, ← List.tail_drop]
    rcases hq : queue.drop n with _ | ⟨b, rest⟩ <;> simp [mockSend]


/-! Request-builder fold lemmas. The builder threads a pair of accumulated
contents and the tool-id-to-name map; these lemmas say contents accumulate
by appending while the map evolves independently of the contents. -/

theorem tuFold_fst (tus : List MockToolUse) :
    ∀ (cs cs' : List GeminiContent) (tm : String → Option String),
    (List.foldl tuStep (cs ++ cs', tm) tus).1 = cs ++ (List.foldl tuStep (cs', tm) tus).1 := by
  induction tus with
  | nil => intro cs cs' tm; simp
  | cons tu rest ih =>
    intro cs cs' tm
    simp only [List.foldl_cons, tuStep]
    rw [List.append_assoc]
    exact ih cs _ _

theorem tuFold_snd (tus : List MockToolUse) :
    ∀ (cs cs' : List GeminiContent) (tm : String → Option String),
    (List.foldl tuStep (cs, tm) tus).2 = (List.foldl tuStep (cs', tm) tus).2 := by
  induction tus with
  | nil => intro cs cs' tm; rfl
  | cons tu rest ih =>
    intro cs cs' tm
    simp only [List.foldl_cons, tuStep]
    exact ih _ _ _

theorem pm_fst (m : MockChatMessage) :
    ∀ (cs cs' : List GeminiContent) (tm : String → Option String),
    (processMessage (cs ++ cs', tm) m).1 = cs ++ (processMessage (cs', tm) m).1 := by
  intro cs cs' tm
  cases m with
  | UserMessage content trs =>
    cases trs <;> by_cases hc : content = "" <;> simp [processMessage, hc]
  | AssistantMessage content tus =>
    cases tus with
    | none => by_cases hc : content = "" <;> simp [processMessage, hc]
    | some tus =>
      by_cases hc : content = "" <;> simp only [processMessage, hc, reduceIte]
      · exact tuFold_fst tus cs cs' tm
      · rw [List.append_assoc]
        exact tuFold_fst tus cs _ tm

theorem pm_snd (m : MockChatMessage) :
    ∀ (cs cs' : List GeminiContent) (tm : String → Option String),
    (processMessage (cs, tm) m).2 = (processMessage (cs', tm) m).2 := by
  intro cs cs' tm
  cases m with
  | UserMessage content trs =>
    cases trs <;> by_cases hc : content = "" <;> simp [processMessage, hc]
  | AssistantMessage content tus =>
    cases tus with
    | none => by_cases hc : content = "" <;> simp [processMessage, hc]
    | some tus =>
      by_cases hc : content = "" <;> simp only [processMessage, hc, reduceIte]
      · exact tuFold_snd tus _ _ tm
      · exact tuFold_snd tus _ _ tm

theorem fold_fst (msgs : List MockChatMessage) :
    ∀ (cs cs' : List GeminiContent) (tm : String → Option String),
    (msgs.foldl processMessage (cs ++ cs', tm)).1
      = cs ++ (msgs.foldl processMessage (cs', tm)).1 := by
  induction msgs with
  | nil => intro cs cs' tm; simp
  | cons m rest ih =>
    intro cs cs' tm
    simp only [List.foldl_cons]
    have h1 : processMessage (cs ++ cs', tm) m
        = (cs ++ (processMessage (cs', tm) m).1, (processMessage (cs', tm) m).2) :=
      Prod.ext (pm_fst m cs cs' tm) (pm_snd m (cs ++ cs') cs' tm)
    rw [h1]
    conv_rhs => rw [← Prod.mk.eta (p := processMessage (cs', tm) m)]
    exact ih cs _ _

theorem fold_snd (msgs : List MockChatMessage) :
    ∀ (cs cs' : List GeminiContent) (tm : String → Option String),
    (msgs.foldl processMessage (cs, tm)).2 = (msgs.foldl processMessage (cs', tm)).2 := by
  induction msgs with
  | nil => intro cs cs' tm; rfl
  | cons m rest ih =>
    intro cs cs' tm
    simp only [List.foldl_cons]
    have h2 : processMessage (cs, tm) m
        = ((processMessage (cs, tm) m).1, (processMessage (cs', tm) m).2) :=
      Prod.ext rfl (pm_snd m cs cs' tm)
    rw [h2]
    conv_rhs => rw [← Prod.mk.eta (p := processMessage (cs', tm) m)]
    exact ih _ _ _

/-- Contents already accumulated stay in the fold's output. -/
theorem mem_foldl_processMessage (msgs : List MockChatMessage)
    (cs : List GeminiContent) (tm : String → Option String) (c : GeminiContent)
    (hc : c ∈ cs) : c ∈ (msgs.foldl processMessage (cs, tm)).1 := by
  have h := fold_fst msgs cs [] tm
  rw [List.append_nil] at h
  rw [h]
  exact List.mem_append_left _ hc

/-! Correlator map lemmas: the id-to-name map after processing messages. -/

theorem tuFold_map_none (tus : List MockToolUse) (k : String) :
    ∀ (st : List GeminiContent × (String → Option String)),
    (∀ tu ∈ tus, tu.tool_use_id ≠ k) → (tus.foldl tuStep st).2 k = st.2 k := by
  induction tus with
  | nil => intro st _; rfl
  | cons tu rest ih =>
    intro st hne
    simp only [List.foldl_cons]
    rw [ih (tuStep st tu) (fun tu' h' => hne tu' (by simp [h']))]
    have : ¬ (k = tu.tool_use_id) := fun h => hne tu (by simp) h.symm
    simp [tuStep, this]

theorem tuFold_map_name (tus : List MockToolUse) (k n : String) :
    ∀ (st : List GeminiContent × (String → Option String)),
    (∃ tu ∈ tus, tu.tool_use_id = k) → (∀ tu ∈ tus, tu.tool_use_id = k → tu.name = n) →
    (tus.foldl tuStep st).2 k = some n := by
  induction tus with
  | nil => intro st hex _; simp at hex
  | cons tu rest ih =>
    intro st hex hall
    simp only [List.foldl_cons]
    by_cases hrest : ∃ tu' ∈ rest, tu'.tool_use_id = k
    · exact ih (tuStep st tu) hrest (fun tu' h' => hall tu' (by simp [h']))
    · push_neg at hrest
      rcases hex with ⟨tu', htu', hk⟩
      rcases List.mem_cons.mp htu' with h | h
      · subst h
        rw [tuFold_map_none rest k (tuStep st tu') hrest]
        have hn := hall tu' (by simp) hk
        simp [tuStep, hk, hn]
      · exact absurd hk (hrest tu' h)

theorem pm_map_not_uses (m : MockChatMessage) (k : String)
    (st : List GeminiContent × (String → Option String))
    (h : ¬ msgUsesId m k) : (processMessage st m).2 k = st.2 k := by
  cases m with
  | UserMessage content trs => cases trs <;> rfl
  | AssistantMessage content tus =>
    cases tus with
    | none => rfl
    | some tus =>
      have hne : ∀ tu ∈ tus, tu.tool_use_id ≠ k := by
        intro tu htu hk
        exact h ⟨tu, htu, hk⟩
      by_cases hc : content = "" <;> simp only [processMessage, hc, reduceIte] <;>
        exact tuFold_map_none tus k _ hne

theorem fold_map_not_uses (msgs : List MockChatMessage) (k : String) :
    ∀ (st : List GeminiContent × (String → Option String)),
    (∀ m ∈ msgs, ¬ msgUsesId m k) → (msgs.foldl processMessage st).2 k = st.2 k := by
  induction msgs with
  | nil => intro st _; rfl
  | cons m rest ih =>
    intro st h
    simp only [List.foldl_cons]
    rw [ih (processMessage st m) (fun m' h' => h m' (by simp [h']))]
    exact pm_map_not_uses m k st (h m (by simp))

theorem pm_map_assistant (content : String) (tus : List MockToolUse) (k n : String)
    (st : List GeminiContent × (String → Option String))
    (hex : ∃ tu ∈ tus, tu.tool_use_id = k)
    (hall : ∀ tu ∈ tus, tu.tool_use_id = k → tu.name = n) :
    (processMessage st (.AssistantMessage content (some tus))).2 k = some n := by
  by_cases hc : content = "" <;> simp only [processMessage, hc, reduceIte] <;>
    exact tuFold_map_name tus k n _ hex hall

/-- The contents a user message contributes: its text part when nonempty,
then one function-response content per tool result in order, each named by
the map lookup with fallback to the raw id. -/
theorem pm_user_contents (content : String) (trs : List MockToolResult)
    (st : List GeminiContent × (String → Option String)) :
    (processMessage st (.UserMessage content (some trs))).1
      = st.1 ++ (if content = "" then [] else [⟨some "user", [.Text content]⟩])
        ++ trs.map (fun r =>
            (⟨some "user",
              [.FunctionResponse (tool_result_to_gemini_function_response
                ((st.2 r.tool_use_id).getD r.tool_use_id) r.content r.status)]⟩ :
              GeminiContent)) := by
  by_cases hc : content = "" <;> simp [processMessage, hc]

/-! Shape of the parts produced by each kind of message, for payload-shape
claims. -/

theorem tuFold_parts (tus : List MockToolUse) :
    ∀ (st : List GeminiContent × (String → Option String)) (c : GeminiContent),
    c ∈ (tus.foldl tuStep st).1 →
    c ∈ st.1 ∨ ∃ tu ∈ tus, c = ⟨some "model", [.FunctionCall ⟨tu.name, tu.args⟩]⟩ := by
  induction tus with
  | nil => intro st c hc; exact Or.inl hc
  | cons tu rest ih =>
    intro st c hc
    rcases ih (tuStep st tu) c hc with h | ⟨tu', htu', hc'⟩
    · rcases List.mem_append.mp h with h' | h'
      · exact Or.inl h'
      · simp at h'
        exact Or.inr ⟨tu, by simp, h'⟩
    · exact Or.inr ⟨tu', by simp [htu'], hc'⟩

theorem pm_fnResp (m : MockChatMessage)
    (st : List GeminiContent × (String → Option String)) (c : GeminiContent)
    (fr : GeminiFunctionResponse)
    (hc : c ∈ (processMessage st m).1) (hfr : GeminiPart.FunctionResponse fr ∈ c.parts) :
    c ∈ st.1 ∨ ∃ uc trs, m = .UserMessage uc (some trs) ∧ ∃ r ∈ trs, ∃ nm,
      fr = tool_result_to_gemini_function_response nm r.content r.status := by
  cases m with
  | UserMessage content trs =>
    cases trs with
    | none =>
      by_cases hcont : content = "" <;> simp only [processMessage, hcont, reduceIte] at hc
      · exact Or.inl hc
      · rcases List.mem_append.mp hc with h | h
        · exact Or.inl h
        · simp at h
          subst h
          simp at hfr
    | some trs =>
      rw [pm_user_contents content trs st] at hc
      rcases List.mem_append.mp hc with h | h
      · rcases List.mem_append.mp h with h' | h'
        · exact Or.inl h'
        · split at h' <;> simp at h'
          subst h'
          simp at hfr
      · rcases List.mem_map.mp h with ⟨r, hr, hc'⟩
        subst hc'
        simp at hfr
        exact Or.inr ⟨content, trs, rfl, r, hr, _, hfr⟩
  | AssistantMessage content tus =>
    cases tus with
    | none =>
      by_cases hcont : content = "" <;> simp only [processMessage, hcont, reduceIte] at hc
      · exact Or.inl hc
      · rcases List.mem_append.mp hc with h | h
        · exact Or.inl h
        · simp at h
          subst h
          simp at hfr
    | some tus =>
      by_cases hcont : content = "" <;> simp only [processMessage, hcont, reduceIte] at hc <;>
        rcases tuFold_parts tus _ c hc with h | ⟨tu, _, hc'⟩
      · exact Or.inl h
      · subst hc'
        simp at hfr
      · rcases List.mem_append.mp h with h' | h'
        · exact Or.inl h'
        · simp at h'
          subst h'
          simp at hfr
      · subst hc'
        simp at hfr

theorem fold_fnResp (msgs : List MockChatMessage) :
    ∀ (st : List GeminiContent × (String → Option String)) (c : GeminiContent)
    (fr : GeminiFunctionResponse),
    c ∈ (msgs.foldl processMessage st).1 → GeminiPart.FunctionResponse fr ∈ c.parts →
    c ∈ st.1 ∨ ∃ m ∈ msgs, ∃ uc trs, m = MockChatMessage.UserMessage uc (some trs) ∧
      ∃ r ∈ trs, ∃ nm, fr = tool_result_to_gemini_function_response nm r.content r.status := by
  induction msgs with
  | nil => intro st c fr hc _; exact Or.inl hc
  | cons m rest ih =>
    intro st c fr hc hfr
    rcases ih (processMessage st m) c fr hc hfr with h | ⟨m', hm', rest'⟩
    · rcases pm_fnResp m st c fr h hfr with h' | ⟨uc, trs, hm, hrest⟩
      · exact Or.inl h'
      · exact Or.inr ⟨m, by simp, uc, trs, hm, hrest⟩
    · exact Or.inr ⟨m', by simp [hm'], rest'⟩

/-- jget through cleanPropList: the first k-entry, when it is an object,
maps to its simplified form. -/
theorem jget_cleanPropList (pl : List (String × JVal)) (k : String)
    (pkv : List (String × JVal)) (h : jget pl k = some (.obj pkv)) :
    jget (cleanPropList pl) k = some (.obj (cleanProp pkv)) := by
  induction pl with
  | nil => simp [jget] at h
  | cons hd tl ih =>
    obtain ⟨k0, v0⟩ := hd
    simp only [jget] at h
    by_cases hk : k0 = k
    · rw [if_pos hk] at h
      cases h
      simp [jget, hk]
    · rw [if_neg hk] at h
      cases v0 <;> simp [jget, hk, ih h]

/-- A key all of whose entries hold non-object values does not occur in the
cleaned property list. -/
theorem cleanPropList_jget_none (pl : List (String × JVal)) (k : String)
    (h : ∀ v, (k, v) ∈ pl → ∀ pkvs, v ≠ JVal.obj pkvs) :
    jget (cleanPropList pl) k = none := by
  induction pl with
  | nil => simp
  | cons hd tl ih =>
    obtain ⟨k0, v0⟩ := hd
    have ihtl := ih (fun v hv => h v (by simp [hv]))
    cases v0 <;> simp [ihtl]
    case obj pkvs =>
      by_cases hk : k0 = k
      · subst hk
        exact absurd rfl (h (JVal.obj pkvs) (by simp) pkvs)
      · simp [jget, hk, ihtl]

/-! The claims. -/

/-- C1, counterexample: the simplifier is not idempotent as stated. For the
schema whose property p has the array-of-types type ["array"], the first
simplification keeps the string "array" as the type but, because the items
branch tests the original type value with is_string, emits no items key; the
second simplification then adds a default items key, so the outputs differ. -/
theorem c1_idempotent_counterexample :
    clean_parameters_for_gemini (clean_parameters_for_gemini
      (.obj [( "properties", .obj [( "p", .obj [( "type", .arr [.str "array"])])])]))
    ≠ clean_parameters_for_gemini
      (.obj [( "properties", .obj [( "p", .obj [( "type", .arr [.str "array"])])])]) := by
  simp [clean_parameters_for_gemini, cleanProp, typeFieldOf, descFieldOf,
    enumFieldOf, itemsFieldOf, objFieldOf, clean_array_items, jget]

/-- C1, amended: clean_parameters_for_gemini is idempotent on every JSON
value in which no object maps its type key to a JSON array (the
array-of-types inputs excluded by the counterexample above). -/
theorem c1_simplify_idempotent (x : JVal) (h : noArrTypeV x = true) :
    clean_parameters_for_gemini (clean_parameters_for_gemini x)
      = clean_parameters_for_gemini x :=
  clean_parameters_idem_of_noArrType x h

/-- C1, witness for the amended theorem at a concrete nested schema. -/
theorem c1_simplify_idempotent_witness :
    noArrTypeV (.obj [( "type", .str "object"),
      ( "properties", .obj [( "a", .obj [( "type", .str "number"),
        ( "description", .str "a number")])]),
      ( "required", .arr [.str "a"])]) = true ∧
    clean_parameters_for_gemini (clean_parameters_for_gemini
      (.obj [( "type", .str "object"),
        ( "properties", .obj [( "a", .obj [( "type", .str "number"),
          ( "description", .str "a number")])]),
        ( "required", .arr [.str "a"])]))
      = clean_parameters_for_gemini
        (.obj [( "type", .str "object"),
          ( "properties", .obj [( "a", .obj [( "type", .str "number"),
            ( "description", .str "a number")])]),
          ( "required", .arr [.str "a"])]) :=
  ⟨by decide, c1_simplify_idempotent _ (by decide)⟩

/-- C2, counterexample: for a property whose source type is the array
["array", "null"], the resolved type in the claim's sense is "array" and an
items schema is given, yet the simplified property carries no items key at
all: the items branch tests the original type value with is_string and
skips array-of-types sources. -/
theorem c2_array_items_counterexample :
    clean_parameters_for_gemini
      (.obj [( "properties", .obj [( "q", .obj [( "type", .arr [.str "array", .str "null"]),
        ( "items", .obj [( "type", .str "number")])])])])
    = .obj [( "type", .str "object"),
            ( "properties", .obj [( "q", .obj [( "type", .str "array")])]),
            ( "required", .arr [])] := by
  simp [clean_parameters_for_gemini, cleanProp, typeFieldOf, descFieldOf,
    enumFieldOf, itemsFieldOf, objFieldOf, clean_array_items, jget]

/-- C2, amended: for every property whose source type is the string "array"
(not merely array-of-types resolved to it), the simplified property carries
an items key holding the one-level cleaning of the source items schema when
given, and the default string schema otherwise. -/
theorem c2_array_items (kvs pl pkv : List (String × JVal)) (k : String)
    (hprops : jget kvs "properties" = some (.obj pl))
    (hk : jget pl k = some (.obj pkv))
    (htype : jget pkv "type" = some (.str "array")) :
    clean_parameters_for_gemini (.obj kvs)
      = .obj [( "type", .str "object"), ( "properties", .obj (cleanPropList pl)),
              ( "required", (jget kvs "required").getD (.arr []))] ∧
    jget (cleanPropList pl) k = some (.obj (cleanProp pkv)) ∧
    jget (cleanProp pkv) "items" = some (match jget pkv "items" with
      | some it => clean_array_items it
      | none => .obj [( "type", .str "string")]) := by
  refine ⟨?_, jget_cleanPropList pl k pkv hk, ?_⟩
  · unfold clean_parameters_for_gemini
    dsimp only
    rw [hprops]
  · rw [jget_cleanProp_items pkv]
    unfold itemsOut
    rw [htype]
    rcases jget pkv "items" with _ | it <;> rfl

/-- C2, witness for the amended theorem at a concrete schema with an
array-typed property carrying an items schema. -/
theorem c2_array_items_witness :
    jget [( "properties", .obj [( "xs", .obj [( "type", .str "array"),
        ( "items", .obj [( "type", .str "number"), ( "minimum", .num 0)])])])]
      "properties"
      = some (.obj [( "xs", .obj [( "type", .str "array"),
          ( "items", .obj [( "type", .str "number"), ( "minimum", .num 0)])])]) ∧
    jget [( "xs", JVal.obj [( "type", .str "array"),
        ( "items", .obj [( "type", .str "number"), ( "minimum", .num 0)])])] "xs"
      = some (.obj [( "type", .str "array"),
          ( "items", .obj [( "type", .str "number"), ( "minimum", .num 0)])]) ∧
    jget (cleanProp [( "type", JVal.str "array"),
        ( "items", .obj [( "type", .str "number"), ( "minimum", .num 0)])]) "items"
      = some (match jget [( "type", JVal.str "array"),
          ( "items", JVal.obj [( "type", .str "number"), ( "minimum", .num 0)])] "items" with
        | some it => clean_array_items it
        | none => .obj [( "type", .str "string")]) :=
  ⟨by decide, by decide,
    (c2_array_items
      [( "properties", .obj [( "xs", .obj [( "type", .str "array"),
        ( "items", .obj [( "type", .str "number"), ( "minimum", .num 0)])])])]
      [( "xs", .obj [( "type", .str "array"),
        ( "items", .obj [( "type", .str "number"), ( "minimum", .num 0)])])]
      [( "type", .str "array"), ( "items", .obj [( "type", .str "number"), ( "minimum", .num 0)])]
      "xs" (by decide) (by decide) (by decide)).2.2⟩

/-- C3, counterexample: a 429 from the QDeveloper enterprise backend is not
classified as quota breach; the QDeveloper send arm converts every error
generically, so the error surfaces as the origin-tagged wrapping. -/
theorem c3_quota_breach_counterexample :
    enterpriseClassifyError .qdeveloper ⟨some 429, none, none⟩
      = ApiClientError.QDeveloper ⟨some 429, none, none⟩ ∧
    ApiClientError.QDeveloper ⟨some 429, none, none⟩
      ≠ ApiClientError.QuotaBreach "quota has reached its limit" := by
  constructor
  · rfl
  · decide

/-- C3, amended: on the Codewhisperer arm (the default enterprise backend)
every send error whose raw HTTP status is 429 is classified as the quota
breach variant, never as the generic origin-tagged wrapping; the QDeveloper
arm performs no such classification. -/
theorem c3_quota_breach_429 (e : ServiceError) (h : e.status = some 429) :
    enterpriseClassifyError .codewhisperer e
      = ApiClientError.QuotaBreach "quota has reached its limit" := by
  simp [enterpriseClassifyError, codewhispererClassifyError, h]

/-- C3, witness at a concrete 429 service error. -/
theorem c3_quota_breach_429_witness :
    (⟨some 429, some "ThrottlingException", some "slow down"⟩ : ServiceError).status
      = some 429 ∧
    enterpriseClassifyError .codewhisperer
      ⟨some 429, some "ThrottlingException", some "slow down"⟩
      = ApiClientError.QuotaBreach "quota has reached its limit" :=
  ⟨rfl, c3_quota_breach_429 _ rfl⟩

/-- C9, counterexample: the RequestId trait implementation exposes a
non-absent placeholder request id for the Gemini and Mock outputs,
contradicting the claim that the id exposed to callers is always None for
these backends. -/
theorem c9_request_id_counterexample :
    requestIdTraitImpl (SendMessageOutput.Gemini []) = some "<gemini-request-id>" ∧
    requestIdTraitImpl (SendMessageOutput.Mock []) = some "<mock-request-id>" ∧
    requestIdTraitImpl (SendMessageOutput.Gemini []) ≠ none := by
  refine ⟨rfl, rfl, ?_⟩
  decide

/-- C9, amended: the inherent request_id accessor returns None for the
Gemini and Mock outputs and the underlying service id for the enterprise
outputs; the RequestId trait implementation, however, returns fixed
placeholder ids for Gemini and Mock. -/
theorem c9_request_id (v : List ChatResponseStream) (rid : Option String) :
    (SendMessageOutput.Gemini v).request_id = none ∧
    (SendMessageOutput.Mock v).request_id = none ∧
    (SendMessageOutput.Codewhisperer rid).request_id = rid ∧
    (SendMessageOutput.QDeveloper rid).request_id = rid ∧
    requestIdTraitImpl (SendMessageOutput.Gemini v) = some "<gemini-request-id>" ∧
    requestIdTraitImpl (SendMessageOutput.Mock v) = some "<mock-request-id>" :=
  ⟨rfl, rfl, rfl, rfl, rfl, rfl⟩

/-- C4: in a conversation whose history contains an assistant ToolUse with
id tool-123 and name fs_read, followed later by a user ToolResult citing
tool-123 (with no other ToolUse reusing that id in between, per the data
model's id-uniqueness invariant), the built request contains the function
response for that result under the name fs_read, not tool-123. -/
theorem c4_correlator_resolves_name
    (um : MockChatMessage) (tools : Option (List MockTool)) (temp : Rat)
    (h1 h2 h3 : List MockChatMessage) (ac uc : String)
    (tus : List MockToolUse) (trs : List MockToolResult)
    (tu : MockToolUse) (r : MockToolResult)
    (htu : tu ∈ tus) (hid : tu.tool_use_id = "tool-123")
    (huniq : ∀ tu' ∈ tus, tu'.tool_use_id = "tool-123" → tu'.name = "fs_read")
    (hgap : ∀ m ∈ h2, ¬ msgUsesId m "tool-123")
    (hr : r ∈ trs) (hrid : r.tool_use_id = "tool-123") :
    (⟨some "user", [.FunctionResponse
        (tool_result_to_gemini_function_response "fs_read" r.content r.status)]⟩ :
      GeminiContent)
      ∈ (conversation_state_to_gemini_request um
          (h1 ++ [.AssistantMessage ac (some tus)] ++ h2 ++ [.UserMessage uc (some trs)] ++ h3)
          tools temp).contents := by
  unfold conversation_state_to_gemini_request
  dsimp only
  have hsplit : (h1 ++ [MockChatMessage.AssistantMessage ac (some tus)] ++ h2
      ++ [MockChatMessage.UserMessage uc (some trs)] ++ h3) ++ [um]
      = (h1 ++ [MockChatMessage.AssistantMessage ac (some tus)] ++ h2)
        ++ ([MockChatMessage.UserMessage uc (some trs)] ++ (h3 ++ [um])) := by
    simp [List.append_assoc]
  rw [hsplit, List.foldl_append, List.foldl_append]
  set stP := (h1 ++ [MockChatMessage.AssistantMessage ac (some tus)] ++ h2).foldl
    processMessage (([], fun _ => none) : List GeminiContent × (String → Option String))
    with hstP
  have hmap : stP.2 "tool-123" = some "fs_read" := by
    rw [hstP, List.foldl_append,
      fold_map_not_uses h2 "tool-123" _ hgap,
      List.foldl_append]
    simp only [List.foldl_cons, List.foldl_nil]
    exact pm_map_assistant ac tus "tool-123" "fs_read" _ ⟨tu, htu, hid⟩ huniq
  simp only [List.foldl_cons, List.foldl_nil]
  have hU : (⟨some "user", [.FunctionResponse
      (tool_result_to_gemini_function_response "fs_read" r.content r.status)]⟩ :
        GeminiContent)
      ∈ (processMessage stP (.UserMessage uc (some trs))).1 := by
    rw [pm_user_contents uc trs stP]
    have hfr : (⟨some "user", [.FunctionResponse
        (tool_result_to_gemini_function_response
          ((stP.2 r.tool_use_id).getD r.tool_use_id) r.content r.status)]⟩ : GeminiContent)
        = ⟨some "user", [.FunctionResponse
            (tool_result_to_gemini_function_response "fs_read" r.content r.status)]⟩ := by
      rw [hrid, hmap]
      rfl
    exact List.mem_append_right _ (hfr ▸ List.mem_map_of_mem _ hr)
  have hmem := mem_foldl_processMessage (h3 ++ [um])
    (processMessage stP (.UserMessage uc (some trs))).1
    (processMessage stP (.UserMessage uc (some trs))).2 _ hU
  rw [Prod.mk.eta] at hmem
  exact hmem

/-- C4, witness: the source test's conversation, with the tool use
tool-123/fs_read in history followed by a tool result for tool-123; the
built request contains the function response named fs_read. -/
theorem c4_correlator_resolves_name_witness :
    (⟨"fs_read", .obj [( "path", .str "test.txt")], "tool-123"⟩ : MockToolUse)
      ∈ [(⟨"fs_read", .obj [( "path", .str "test.txt")], "tool-123"⟩ : MockToolUse)] ∧
    (⟨"tool-123", .str "This is the file content.", "success"⟩ : MockToolResult)
      ∈ [(⟨"tool-123", .str "This is the file content.", "success"⟩ : MockToolResult)] ∧
    (⟨some "user", [.FunctionResponse (tool_result_to_gemini_function_response "fs_read"
        (.str "This is the file content.") "success")]⟩ : GeminiContent)
      ∈ (conversation_state_to_gemini_request
          (.UserMessage "Tell me more about my file." none)
          ([] ++ [.AssistantMessage "I'll help you read that file."
              (some [⟨"fs_read", .obj [( "path", .str "test.txt")], "tool-123"⟩])]
            ++ []
            ++ [.UserMessage ""
                (some [⟨"tool-123", .str "This is the file content.", "success"⟩])]
            ++ [.AssistantMessage "Your file says: This is the file content." none])
          none (7/10)).contents :=
  ⟨by decide, by decide,
    c4_correlator_resolves_name
      (.UserMessage "Tell me more about my file." none) none (7/10)
      [] [] [.AssistantMessage "Your file says: This is the file content." none]
      "I'll help you read that file." ""
      [⟨"fs_read", .obj [( "path", .str "test.txt")], "tool-123"⟩]
      [⟨"tool-123", .str "This is the file content.", "success"⟩]
      ⟨"fs_read", .obj [( "path", .str "test.txt")], "tool-123"⟩
      ⟨"tool-123", .str "This is the file content.", "success"⟩
      (by decide) rfl (by decide) (by simp) (by decide) rfl⟩

/-- C5: a ToolResult whose tool_use_id has no matching ToolUse anywhere
earlier in the conversation (history plus current message, in order)
produces a function response named by the raw id itself; building is a
total function, so the request is still produced. -/
theorem c5_correlator_fallback_raw_id
    (um : MockChatMessage) (history : List MockChatMessage)
    (tools : Option (List MockTool)) (temp : Rat)
    (p s : List MockChatMessage) (uc : String) (trs : List MockToolResult)
    (r : MockToolResult)
    (hsplit : history ++ [um] = p ++ [.UserMessage uc (some trs)] ++ s)
    (hnone : ∀ m ∈ p, ¬ msgUsesId m r.tool_use_id)
    (hr : r ∈ trs) :
    (⟨some "user", [.FunctionResponse (tool_result_to_gemini_function_response
        r.tool_use_id r.content r.status)]⟩ : GeminiContent)
      ∈ (conversation_state_to_gemini_request um history tools temp).contents := by
  unfold conversation_state_to_gemini_request
  dsimp only
  rw [hsplit, List.foldl_append, List.foldl_append]
  set stP := p.foldl processMessage
    (([], fun _ => none) : List GeminiContent × (String → Option String)) with hstP
  have hmap : stP.2 r.tool_use_id = none := by
    rw [hstP, fold_map_not_uses p r.tool_use_id _ hnone]
  simp only [List.foldl_cons, List.foldl_nil]
  have hU : (⟨some "user", [.FunctionResponse (tool_result_to_gemini_function_response
      r.tool_use_id r.content r.status)]⟩ : GeminiContent)
      ∈ (processMessage stP (.UserMessage uc (some trs))).1 := by
    rw [pm_user_contents uc trs stP]
    have hfr : (⟨some "user", [.FunctionResponse
        (tool_result_to_gemini_function_response
          ((stP.2 r.tool_use_id).getD r.tool_use_id) r.content r.status)]⟩ : GeminiContent)
        = ⟨some "user", [.FunctionResponse (tool_result_to_gemini_function_response
            r.tool_use_id r.content r.status)]⟩ := by
      rw [hmap]
      rfl
    exact List.mem_append_right _ (hfr ▸ List.mem_map_of_mem _ hr)
  have hmem := mem_foldl_processMessage s
    (processMessage stP (.UserMessage uc (some trs))).1
    (processMessage stP (.UserMessage uc (some trs))).2 _ hU
  rw [Prod.mk.eta] at hmem
  exact hmem

/-- C5, witness: a result citing tool-999 with no prior tool use; the
response is named tool-999. -/
theorem c5_correlator_fallback_raw_id_witness :
    (⟨"tool-999", .str "output", "error"⟩ : MockToolResult)
      ∈ [(⟨"tool-999", .str "output", "error"⟩ : MockToolResult)] ∧
    (⟨some "user", [.FunctionResponse (tool_result_to_gemini_function_response
        "tool-999" (.str "output") "error")]⟩ : GeminiContent)
      ∈ (conversation_state_to_gemini_request
          (.UserMessage "done" (some [⟨"tool-999", .str "output", "error"⟩]))
          [] none (7/10)).contents :=
  ⟨by decide,
    c5_correlator_fallback_raw_id
      (.UserMessage "done" (some [⟨"tool-999", .str "output", "error"⟩]))
      [] none (7/10) [] [] "done"
      [⟨"tool-999", .str "output", "error"⟩]
      ⟨"tool-999", .str "output", "error"⟩
      rfl (by simp) (by decide)⟩

/-- C6: every function-response part of a built request carries exactly the
payload of some tool result of the conversation, shaped by its status: the
object with single key result holding the content when the status is the
string "success", else the object with single key error holding the
content; no other payload shape occurs. -/
theorem c6_function_response_payload_shape
    (um : MockChatMessage) (history : List MockChatMessage)
    (tools : Option (List MockTool)) (temp : Rat)
    (c : GeminiContent) (fr : GeminiFunctionResponse)
    (hc : c ∈ (conversation_state_to_gemini_request um history tools temp).contents)
    (hfr : GeminiPart.FunctionResponse fr ∈ c.parts) :
    ∃ r : MockToolResult, resultInConversation r (history ++ [um]) ∧
      fr.response = (if r.status = "success" then .obj [( "result", r.content)]
        else .obj [( "error", r.content)]) := by
  unfold conversation_state_to_gemini_request at hc
  dsimp only at hc
  rcases fold_fnResp (history ++ [um]) ([], fun _ => none) c fr hc hfr with
    h | ⟨m, hm, uc, trs, hmeq, r, hrtrs, nm, hfreq⟩
  · simp at h
  · refine ⟨r, ⟨m, hm, uc, trs, hmeq, hrtrs⟩, ?_⟩
    rw [hfreq]
    rfl

/-- C6, witness at a concrete conversation with one successful result. -/
theorem c6_function_response_payload_shape_witness :
    (⟨some "user", [.FunctionResponse (tool_result_to_gemini_function_response
        "id1" (.str "ok") "success")]⟩ : GeminiContent)
      ∈ (conversation_state_to_gemini_request
          (.UserMessage "" (some [⟨"id1", .str "ok", "success"⟩]))
          [] none (7/10)).contents ∧
    GeminiPart.FunctionResponse (tool_result_to_gemini_function_response
        "id1" (.str "ok") "success")
      ∈ (⟨some "user", [.FunctionResponse (tool_result_to_gemini_function_response
          "id1" (.str "ok") "success")]⟩ : GeminiContent).parts ∧
    ∃ r : MockToolResult,
      resultInConversation r ([] ++ [.UserMessage "" (some [⟨"id1", .str "ok", "success"⟩])]) ∧
      (tool_result_to_gemini_function_response "id1" (.str "ok") "success").response
        = (if r.status = "success" then .obj [( "result", r.content)]
          else .obj [( "error", r.content)]) :=
  ⟨by decide, by decide,
    c6_function_response_payload_shape
      (.UserMessage "" (some [⟨"id1", .str "ok", "success"⟩])) [] none (7/10)
      ⟨some "user", [.FunctionResponse (tool_result_to_gemini_function_response
        "id1" (.str "ok") "success")]⟩
      (tool_result_to_gemini_function_response "id1" (.str "ok") "success")
      (by decide) (by decide)⟩

/-- C7: normalizing a REST response whose first candidate's parts are one
text part then one function-call part yields, through recv, exactly three
canonical events in source order: the assistant text, a tool-use event with
no input and no stop, and a tool-use event with the serialized args and
stop true. -/
theorem c7_normalizer_three_events
    (genId : Nat → String) (response : GeminiResponse)
    (cand : GeminiCandidate) (rest : List GeminiCandidate)
    (t : String) (fc : GeminiFunctionCall)
    (hcand : response.candidates = cand :: rest)
    (hparts : cand.content.parts = [.Text t, .FunctionCall fc]) :
    drain (geminiStoredEvents genId response)
      = [.AssistantResponseEvent t,
         .ToolUseEvent (genId 0) fc.name none none,
         .ToolUseEvent (genId 0) fc.name (some (serializeArgs fc.args)) (some true)] := by
  unfold geminiStoredEvents
  rw [drain_eq_reverse, List.reverse_reverse]
  unfold normalizeGeminiResponse
  rw [hcand]
  simp [hparts, partsToStreams]

/-- C7, witness at a concrete response with one text and one function-call
part. -/
theorem c7_normalizer_three_events_witness :
    (GeminiResponse.mk [⟨⟨some "model",
        [.Text "Hello", .FunctionCall ⟨"fs_read", .obj [( "path", .str "a.txt")]⟩]⟩⟩]).candidates
      = ⟨⟨some "model",
          [.Text "Hello", .FunctionCall ⟨"fs_read", .obj [( "path", .str "a.txt")]⟩]⟩⟩ :: [] ∧
    drain (geminiStoredEvents (fun _ => "gen-tool-1")
        (GeminiResponse.mk [⟨⟨some "model",
          [.Text "Hello", .FunctionCall ⟨"fs_read", .obj [( "path", .str "a.txt")]⟩]⟩⟩]))
      = [.AssistantResponseEvent "Hello",
         .ToolUseEvent "gen-tool-1" "fs_read" none none,
         .ToolUseEvent "gen-tool-1" "fs_read"
           (some (serializeArgs (.obj [( "path", .str "a.txt")]))) (some true)] :=
  ⟨rfl,
    c7_normalizer_three_events (fun _ => "gen-tool-1") _ _ [] "Hello"
      ⟨"fs_read", .obj [( "path", .str "a.txt")]⟩ rfl rfl⟩

/-- C8: the mock backend seeded with a list of batches replays batch j+1 on
the (j+1)-th send call, event by event in original order through recv, and
the call after the queue is exhausted yields no events. -/
theorem c8_mock_replays_batches
    (batches : List (List ChatResponseStream)) (j : Nat) (h : j < batches.length) :
    drain (mockSend (mockRunState batches j)).1 = batches[j] ∧
    drain (mockSend (mockRunState batches batches.length)).1 = [] := by
  constructor
  · rw [mockRunState_eq_drop, List.drop_eq_getElem_cons h]
    simp [mockSend, drain_eq_reverse]
  · rw [mockRunState_eq_drop, List.drop_length]
    rfl

/-- C8, witness with two seeded batches: the first call replays batch one
and the third call yields nothing. -/
theorem c8_mock_replays_batches_witness :
    (0 < ([[ChatResponseStream.AssistantResponseEvent "one",
        ChatResponseStream.AssistantResponseEvent "two"],
       [ChatResponseStream.AssistantResponseEvent "three"]]).length) ∧
    drain (mockSend (mockRunState
        [[ChatResponseStream.AssistantResponseEvent "one",
          ChatResponseStream.AssistantResponseEvent "two"],
         [ChatResponseStream.AssistantResponseEvent "three"]] 0)).1
      = [ChatResponseStream.AssistantResponseEvent "one",
         ChatResponseStream.AssistantResponseEvent "two"] ∧
    drain (mockSend (mockRunState
        [[ChatResponseStream.AssistantResponseEvent "one",
          ChatResponseStream.AssistantResponseEvent "two"],
         [ChatResponseStream.AssistantResponseEvent "three"]] 2)).1 = [] :=
  ⟨by decide,
    by simpa using (c8_mock_replays_batches
      [[ChatResponseStream.AssistantResponseEvent "one",
        ChatResponseStream.AssistantResponseEvent "two"],
       [ChatResponseStream.AssistantResponseEvent "three"]] 0 (by decide)).1,
    by simpa using (c8_mock_replays_batches
      [[ChatResponseStream.AssistantResponseEvent "one",
        ChatResponseStream.AssistantResponseEvent "two"],
       [ChatResponseStream.AssistantResponseEvent "three"]] 0 (by decide)).2⟩

/-- C10: a property entry whose value is not a JSON object is omitted
entirely from the simplified properties (it does not reappear with a
defaulted schema), and a properties value that is not an object leaves the
output's properties as the template's empty object. -/
theorem c10_non_object_properties_dropped
    (kvs pl : List (String × JVal)) (k : String) (p : JVal) :
    (jget kvs "properties" = some (.obj pl) →
      (∀ v, (k, v) ∈ pl → ∀ pkvs, v ≠ JVal.obj pkvs) →
      clean_parameters_for_gemini (.obj kvs)
        = .obj [( "type", .str "object"), ( "properties", .obj (cleanPropList pl)),
                ( "required", (jget kvs "required").getD (.arr []))] ∧
      jget (cleanPropList pl) k = none) ∧
    (jget kvs "properties" = some p → (∀ okvs, p ≠ JVal.obj okvs) →
      clean_parameters_for_gemini (.obj kvs)
        = .obj [( "type", .str "object"), ( "properties", .obj []),
                ( "required", (jget kvs "required").getD (.arr []))]) := by
  constructor
  · intro hp hno
    constructor
    · unfold clean_parameters_for_gemini
      dsimp only
      rw [hp]
    · exact cleanPropList_jget_none pl k hno
  · intro hp hno
    cases p
    case obj okvs => exact absurd rfl (hno okvs)
    all_goals
      unfold clean_parameters_for_gemini
    all_goals
      dsimp only
    all_goals
      rw [hp]

/-- C10, witness: a string-valued property bad is dropped, and a numeric
properties value leaves properties empty. -/
theorem c10_non_object_properties_dropped_witness :
    jget (cleanPropList [( "bad", JVal.str "nope")]) "bad" = none ∧
    clean_parameters_for_gemini (.obj [( "properties", .num 7)])
      = .obj [( "type", .str "object"), ( "properties", .obj []),
              ( "required", .arr [])] :=
  ⟨((c10_non_object_properties_dropped
      [( "properties", .obj [( "bad", .str "nope")])] [( "bad", .str "nope")] "bad" .null).1
      (by decide)
      (by intro v hv pkvs; simp at hv; subst hv; simp)).2,
   (c10_non_object_properties_dropped
      [( "properties", .num 7)] [] "x" (.num 7)).2
      (by decide)
      (by intro okvs; simp)⟩
